import Mathlib

/-!
# OpenEDI Specification Importer — verification development

Shallow embedding of the import/normalization core of the EDI
specification builder: the usage classifier, the legacy-format
converter, the OpenAPI schema-format converter, and the format
dispatcher, together with theorems settling the frozen claims
about them.

Conventions of the embedding:
* JavaScript `x || d` on optional values is modelled by `jsOr` /
  `jsOrN` (`undefined`, `""` and `0` are falsy, empty arrays are
  truthy).
* `Record<string, T>` objects are modelled as association lists
  `List (String × T)`; `Object.entries` iteration order is the list
  order and bracket lookup is first-match lookup.
* `uuidv4()` and `new Date().toISOString()` are modelled as opaque
  constants: no claim concerns identifier contents or timestamps
  beyond their presence.
* The unbounded recursion of `importOpenAPILoop` is modelled with an
  explicit fuel parameter; `none` means the recursion has not
  finished within the given fuel (in particular, a result that is
  `none` for every fuel is a non-terminating run).
-/

/-- Model of JS `toUpperCase()` (ASCII, which covers every token the
importer compares against), written over the character list so that
the kernel can evaluate it on concrete inputs. -/
def toUpperJS (s : String) : String :=
  ⟨s.data.map Char.toUpper⟩

/-- JS `||` applied to an optional string: `undefined` and the empty
string are falsy, everything else is returned unchanged. -/
def jsOr (x : Option String) (d : String) : String :=
  match x with
  | none => d
  | some s => if s = "" then d else s

/-- JS `||` applied to a plain string: only `""` is falsy. -/
def jsOrS (a b : String) : String :=
  if a = "" then b else a

/-- JS `||` applied to an optional number: `undefined` and `0` are
falsy. -/
def jsOrN (x : Option Nat) (d : Nat) : Nat :=
  match x with
  | none => d
  | some 0 => d
  | some (n+1) => n+1

/-- JS truthiness of an optional string (`''` is falsy). -/
def strTruthy (x : Option String) : Bool :=
  match x with
  | none => false
  | some s => s ≠ ""

/-- Opaque model of `uuidv4()`: identifier contents are irrelevant to
every claim, only the shape of the constructed entities matters. -/
def uuidv4 : String := "uuid"

/-- Opaque model of `new Date().toISOString()`. -/
def nowISO : String := "now"

/-! ## Canonical document model (src/shared/models/edi-types.ts) -/

/-- `UsageType = 'M' | 'O' | 'C'` — Mandatory, Optional, Conditional. -/
inductive UsageType where
  | M
  | O
  | C
deriving DecidableEq, Repr

structure CodeValue where
  code : String
  description : String
  isCustomDescription : Option Bool := none
  included : Bool
deriving DecidableEq, Repr

structure InlineExample where
  value : String
  description : Option String := none
deriving DecidableEq, Repr

inductive DiscriminatorOp where
  | equals
  | oneOf
deriving DecidableEq, Repr

structure DiscriminatorRule where
  elementId : String
  operator : DiscriminatorOp
  values : List String
deriving DecidableEq, Repr

structure Variant where
  id : String
  label : String
  discriminators : List DiscriminatorRule
  usageOverride : Option UsageType := none
  conditionDescription : Option String := none
  comments : Option String := none
deriving DecidableEq, Repr

structure Element where
  id : String
  position : Nat
  name : String
  dataType : String
  minLength : Nat
  maxLength : Nat
  usage : UsageType
  conditionDescription : Option String := none
  comments : Option String := none
  codeValues : Option (List CodeValue) := none
  exampleVal : Option InlineExample := none
  baseUsage : Option UsageType := none
  baseCodes : Option (List CodeValue) := none
deriving DecidableEq, Repr

structure Segment where
  id : String
  name : String
  description : String
  usage : UsageType
  conditionDescription : Option String := none
  minUse : Nat
  maxUse : Nat
  comments : Option String := none
  elements : List Element
  variants : Option (List Variant) := none
  exampleVal : Option InlineExample := none
  order : Option Nat := none
  baseUsage : Option UsageType := none
  baseMinUse : Option Nat := none
  baseMaxUse : Option Nat := none
deriving DecidableEq, Repr

/-- `Loop` nests lists of further loops, so it is a (nested) inductive
type rather than a structure; field projections are defined below. -/
inductive Loop where
  | mk (id : String) (name : String) (description : Option String)
      (usage : UsageType) (conditionDescription : Option String)
      (minUse : Nat) (maxUse : Nat) (comments : Option String)
      (segments : List Segment) (loops : List Loop)
      (variants : Option (List Variant)) (order : Option Nat)
      (baseUsage : Option UsageType) (baseMinUse : Option Nat)
      (baseMaxUse : Option Nat)

def Loop.id : Loop → String
  | .mk i _ _ _ _ _ _ _ _ _ _ _ _ _ _ => i

def Loop.name : Loop → String
  | .mk _ n _ _ _ _ _ _ _ _ _ _ _ _ _ => n

def Loop.description : Loop → Option String
  | .mk _ _ d _ _ _ _ _ _ _ _ _ _ _ _ => d

def Loop.usage : Loop → UsageType
  | .mk _ _ _ u _ _ _ _ _ _ _ _ _ _ _ => u

def Loop.minUse : Loop → Nat
  | .mk _ _ _ _ _ mn _ _ _ _ _ _ _ _ _ => mn

def Loop.maxUse : Loop → Nat
  | .mk _ _ _ _ _ _ mx _ _ _ _ _ _ _ _ => mx

def Loop.segments : Loop → List Segment
  | .mk _ _ _ _ _ _ _ _ s _ _ _ _ _ _ => s

def Loop.loops : Loop → List Loop
  | .mk _ _ _ _ _ _ _ _ _ l _ _ _ _ _ => l

def Loop.order : Loop → Option Nat
  | .mk _ _ _ _ _ _ _ _ _ _ _ o _ _ _ => o

def Loop.baseUsage : Loop → Option UsageType
  | .mk _ _ _ _ _ _ _ _ _ _ _ _ b _ _ => b

def Loop.baseMinUse : Loop → Option Nat
  | .mk _ _ _ _ _ _ _ _ _ _ _ _ _ b _ => b

def Loop.baseMaxUse : Loop → Option Nat
  | .mk _ _ _ _ _ _ _ _ _ _ _ _ _ _ b => b

structure ExampleEDI where
  id : String
  title : String
  description : Option String := none
  content : String
deriving DecidableEq, Repr

structure SpecificationMetadata where
  name : String
  version : String
  transactionSet : String
  transactionSetName : String
  ediVersion : String
  partner : Option String := none
  description : Option String := none
  createdDate : String
  modifiedDate : String
  baseSpecReference : Option String := none
deriving DecidableEq, Repr

structure Specification where
  id : String
  metadata : SpecificationMetadata
  loops : List Loop
  examples : List ExampleEDI

/-! ## Usage classifier (openedi-importer.ts, `parseUsage`) -/

/-- `parseUsage` from the source: a `switch` on `req?.toUpperCase()`
with cases `'M' | 'O' | 'C' | 'X'` and default `'O'`, embedded as the
equivalent sequential comparison chain. -/
def parseUsage (req : Option String) : UsageType :=
  let u := req.map toUpperJS
  if u = some "M" then .M
  else if u = some "O" then .O
  else if u = some "C" then .C
  else if u = some "X" then .C
  else .O

/-- The usage classifier exactly as the specification words it:
`M`→Mandatory; `O`→Optional; `C` or `X`→Conditional; anything else
(including absent) → Optional, case-insensitively. -/
def parseUsageAsSpecified (req : Option String) : UsageType :=
  match req with
  | none => .O
  | some s =>
    let u := toUpperJS s
    if u = "M" then .M
    else if u = "C" ∨ u = "X" then .C
    else .O

example : parseUsage (some "m") = UsageType.M := by decide
example : parseUsage (some "x") = UsageType.C := by decide
example : parseUsage none = UsageType.O := by decide
example : parseUsage (some "weird") = UsageType.O := by decide

/-- **C3.** The usage classifier is a total function on requirement
tokens: case-insensitively `M` maps to Mandatory, `O` to Optional,
`C` and `X` to Conditional, and every other input — including the
absent token and arbitrary strings — maps to Optional. Totality is
inherent in the embedding (`parseUsage` is a Lean function); the
mapping agrees with the specification's description on every input. -/
theorem parseUsage_eq_specified (req : Option String) :
    parseUsage req = parseUsageAsSpecified req := by
  cases req with
  | none => rfl
  | some s =>
    simp only [parseUsage, parseUsageAsSpecified, Option.map_some']
    by_cases hM : toUpperJS s = "M"
    · simp [hM]
    · by_cases hO : toUpperJS s = "O"
      · simp [hM, hO]
      · by_cases hC : toUpperJS s = "C"
        · simp [hM, hO, hC]
        · by_cases hX : toUpperJS s = "X"
          · simp [hM, hO, hC, hX]
          · simp [hM, hO, hC, hX]

/-! ## Legacy OpenEDI input format (edi-types.ts, `OpenEDI*`)

Fields that the importer reads through a JS guard (`||`, `?.`) are
modelled as `Option`s, since the importer is written to tolerate their
absence at runtime; fields read unguarded are plain. -/

structure OpenEDICode where
  Code : String
  Description : String
deriving DecidableEq, Repr

structure OpenEDIElement where
  Id : String
  Name : Option String := none
  DataType : Option String := none
  MinLength : Option Nat := none
  MaxLength : Option Nat := none
  Req : Option String := none
  Codes : Option (List OpenEDICode) := none
deriving DecidableEq, Repr

structure OpenEDISegment where
  Id : String
  Name : Option String := none
  Req : Option String := none
  Max : Option Nat := none
  Elements : Option (List OpenEDIElement) := none
deriving DecidableEq, Repr

/-- Legacy loop nodes nest further loop nodes, hence an inductive. -/
inductive OpenEDILoop where
  | mk (Id : String) (Name : String) (Req : Option String)
      (Max : Option Nat) (Segments : Option (List OpenEDISegment))
      (Loops : Option (List OpenEDILoop))

structure OpenEDITransactionSet where
  TransactionSetId : String
  Name : String
  Version : Option String := none
  Loops : Option (List OpenEDILoop) := none

/-! ## Legacy-format converter (`convertElement` / `convertSegment` /
`convertLoop` / `importOpenEDISpec`) -/

/-- `convertElement` (importer lines 35–55). -/
def convertElement (openEDIElement : OpenEDIElement) (position : Nat) : Element :=
  let usage := parseUsage openEDIElement.Req
  let codeValues : List CodeValue := (openEDIElement.Codes.getD []).map (fun code =>
    { code := code.Code, description := code.Description, included := true })
  { id := uuidv4
    position := position
    name := jsOr openEDIElement.Name openEDIElement.Id
    dataType := jsOr openEDIElement.DataType "AN"
    minLength := jsOrN openEDIElement.MinLength 0
    maxLength := jsOrN openEDIElement.MaxLength 0
    usage := usage
    baseUsage := some usage
    codeValues := if codeValues.length > 0 then some codeValues else none
    baseCodes := if codeValues.length > 0 then some codeValues else none }

/-- `convertSegment` (importer lines 57–73); elements are numbered by
1-based declaration index. -/
def convertSegment (openEDISegment : OpenEDISegment) : Segment :=
  let usage := parseUsage openEDISegment.Req
  let maxUse := jsOrN openEDISegment.Max 1
  { id := uuidv4
    name := openEDISegment.Id
    description := jsOr openEDISegment.Name openEDISegment.Id
    usage := usage
    baseUsage := some usage
    minUse := if usage = .M then 1 else 0
    maxUse := maxUse
    baseMinUse := some (if usage = .M then 1 else 0)
    baseMaxUse := some maxUse
    elements := (openEDISegment.Elements.getD []).enum.map
      (fun p => convertElement p.2 (p.1 + 1)) }

/-- `convertLoop` (importer lines 75–92), depth-first bottom-up. -/
def convertLoop : OpenEDILoop → Loop
  | OpenEDILoop.mk pId pName pReq pMax pSegments pLoops =>
    let usage := parseUsage pReq
    let maxUse := jsOrN pMax 1
    Loop.mk uuidv4 (jsOrS pId pName) (some pName) usage none
      (if usage = .M then 1 else 0) maxUse none
      ((pSegments.getD []).map convertSegment)
      ((pLoops.getD []).attach.map (fun x => convertLoop x.1))
      none none (some usage) (some (if usage = .M then 1 else 0)) (some maxUse)
decreasing_by
  rcases pLoops with _ | ls
  · exact absurd x.2 (List.not_mem_nil _)
  · simp only [OpenEDILoop.mk.sizeOf_spec, Option.some.sizeOf_spec]
    have h := List.sizeOf_lt_of_mem x.2
    simp only [Option.getD] at h
    omega

/-- `importOpenEDISpec` (importer lines 94–112). An absent `Version`
interpolated into a JS template literal prints as the literal string
`undefined`, which the embedding reproduces. -/
def importOpenEDISpec (openEDISpec : OpenEDITransactionSet) : Specification :=
  let now := nowISO
  { id := uuidv4
    metadata := {
      name := openEDISpec.TransactionSetId ++ " - " ++ openEDISpec.Name
      version := "1.0"
      transactionSet := openEDISpec.TransactionSetId
      transactionSetName := openEDISpec.Name
      ediVersion := jsOr openEDISpec.Version "005010"
      createdDate := now
      modifiedDate := now
      baseSpecReference := some ("OpenEDI/" ++ openEDISpec.Version.getD "undefined"
        ++ "/" ++ openEDISpec.TransactionSetId) }
    loops := (openEDISpec.Loops.getD []).map convertLoop
    examples := [] }

/-! ## Schema-format helpers (`parseDataTypeFromFormat`,
`parseElementNameFromKey`, `getElementPosition`) -/

/-- `startsWith` over character lists (kernel-evaluable). -/
def startsWithJS (s pre : String) : Bool :=
  pre.data.isPrefixOf s.data

/-- Contiguous-sublist test over character lists. -/
def isInfixB (pat : List Char) : List Char → Bool
  | [] => pat.isEmpty
  | c :: cs => pat.isPrefixOf (c :: cs) || isInfixB pat cs

/-- JS `String.includes` over character lists. -/
def containsSub (s pat : String) : Bool :=
  isInfixB pat.data s.data

/-- Removes the first occurrence of `pat` from a character list —
the behaviour of JS `String.replace(pat, '')`, which replaces only
the first match. -/
def removeFirstOcc (pat : List Char) : List Char → List Char
  | [] => []
  | c :: cs =>
    if pat.isPrefixOf (c :: cs) then (c :: cs).drop pat.length
    else c :: removeFirstOcc pat cs

/-- The `$ref` path prefix stripped by the importer. -/
def refPath : String := "#/components/schemas/"

/-- `ref.$ref.replace('#/components/schemas/', '')`. -/
def stripRefPath (s : String) : String :=
  ⟨removeFirstOcc refPath.data s.data⟩

/-- `parseDataTypeFromFormat` (importer lines 155–165). -/
def parseDataTypeFromFormat (format : Option String) : String :=
  if strTruthy format = false then "AN"
  else
    let formatUpper := toUpperJS (format.getD "")
    if containsSub formatUpper "_ID" then "ID"
    else if containsSub formatUpper "_N0" then "N0"
    else if containsSub formatUpper "_N2" then "N2"
    else if containsSub formatUpper "_R" then "R"
    else if containsSub formatUpper "_DT" then "DT"
    else if containsSub formatUpper "_TM" then "TM"
    else "AN"

/-- `parseInt(digits, 10)` on a list of decimal digits. -/
def digitsToNat (ds : List Char) : Nat :=
  ds.foldl (fun n c => n * 10 + (c.toNat - 48)) 0

/-- `getElementPosition` (importer lines 173–176): the value of the
regex group in `/_(\d+)$/` when the key has a digit suffix preceded
by an underscore, else 1. -/
def getElementPosition (key : String) : Nat :=
  let ds := key.data.reverse.takeWhile Char.isDigit
  let rest := key.data.take (key.data.length - ds.length)
  if ds ≠ [] ∧ rest.getLast? = some '_' then digitsToNat ds.reverse else 1

/-- `key.replace(/_\d+$/, '')` — drops a trailing underscore-digits
suffix when present. -/
def stripDigitSuffix (key : String) : String :=
  let ds := key.data.reverse.takeWhile Char.isDigit
  let rest := key.data.take (key.data.length - ds.length)
  if ds ≠ [] ∧ rest.getLast? = some '_' then ⟨rest.dropLast⟩ else key

/-- `withoutSuffix.replace(/([A-Z])/g, ' $1')` — a space before each
capital letter. -/
def spaceBeforeCaps (s : String) : String :=
  ⟨(s.data.map (fun c => if c.isUpper then [' ', c] else [c])).flatten⟩

/-- JS `trim()`. -/
def trimJS (s : String) : String :=
  ⟨((s.data.dropWhile Char.isWhitespace).reverse.dropWhile Char.isWhitespace).reverse⟩

/-- `parseElementNameFromKey` (importer lines 167–171). -/
def parseElementNameFromKey (key : String) : String :=
  trimJS (spaceBeforeCaps (stripDigitSuffix key))

/-! ## Schema-format input model (`OpenAPISchema` and friends) -/

/-- An `allOf` combinator entry or an `items` object: `{ $ref?: string }`.
The `$ref` field is spelled `ref`. -/
structure RefObj where
  ref : Option String := none
deriving DecidableEq, Repr

/-- `OpenAPIProperty`; `x-openedi-element-id` is spelled
`xOpenediElementId`, `$ref` is spelled `ref`. -/
structure OpenAPIProperty where
  type : Option String := none
  minLength : Option Nat := none
  maxLength : Option Nat := none
  maxItems : Option Nat := none
  format : Option String := none
  enum : Option (List String) := none
  allOf : Option (List RefObj) := none
  ref : Option String := none
  items : Option RefObj := none
  xOpenediElementId : Option String := none
deriving DecidableEq, Repr

/-- `OpenAPISchemaDefinition`; the `x-openedi-*` marker attributes are
spelled `xOpenedi*`. `properties` is an association list in property
declaration order, as iterated by `Object.entries`. -/
structure OpenAPISchemaDefinition where
  type : Option String := none
  required : Option (List String) := none
  properties : Option (List (String × OpenAPIProperty)) := none
  enum : Option (List String) := none
  allOf : Option (List RefObj) := none
  xOpenediSegmentId : Option String := none
  xOpenediMessageId : Option String := none
  xOpenediMessageStandard : Option String := none
  xOpenediLoopId : Option String := none
deriving DecidableEq, Repr

/-- The flat definition mapping `components.schemas`, in insertion
order. -/
abbrev SchemaMap := List (String × OpenAPISchemaDefinition)

/-- Bracket lookup `allSchemas[refName]`. -/
def findSchema (schemas : SchemaMap) (name : String) : Option OpenAPISchemaDefinition :=
  (schemas.find? (fun p => p.1 == name)).map (·.2)

/-- `OpenAPISchema`: `schemas` models `components?.schemas`. -/
structure OpenAPISchema where
  openapi : String
  infoTitle : Option String := none
  infoVersion : Option String := none
  schemas : Option SchemaMap := none

/-! ## Schema-format segment conversion (`importOpenAPISegment`,
importer lines 178–253) -/

/-- Code-value extraction for one element property (importer lines
197–220): walk the `allOf` combinator entries resolving each `$ref`;
a resolved definition whose `enum` array is present — JS array
truthiness, so even an empty array counts — overwrites the collected
value (last match wins); an inline `enum` on the property itself then
overwrites the combinator result. -/
def elementCodeValues (prop : OpenAPIProperty) (allSchemas : SchemaMap) :
    Option (List CodeValue) :=
  let fromAllOf := (prop.allOf.getD []).foldl (fun acc refObj =>
    if strTruthy refObj.ref then
      let refName := stripRefPath (refObj.ref.getD "")
      match findSchema allSchemas refName with
      | some refSchema =>
        match refSchema.enum with
        | some codes => some (codes.map (fun code =>
            { code := code, description := code, included := true }))
        | none => acc
      | none => acc
    else acc) none
  match prop.enum with
  | some codes => some (codes.map (fun code =>
      { code := code, description := code, included := true }))
  | none => fromAllOf

/-- The element built for one property entry of a segment-like
definition (importer lines 193–234). -/
def importOpenAPIElement (schema : OpenAPISchemaDefinition)
    (allSchemas : SchemaMap) (propKey : String) (prop : OpenAPIProperty) :
    Element :=
  let position := getElementPosition propKey
  let isElementRequired := (schema.required.getD []).contains propKey
  let codeValues := elementCodeValues prop allSchemas
  { id := uuidv4
    position := position
    name := parseElementNameFromKey propKey
    dataType := parseDataTypeFromFormat prop.format
    minLength := jsOrN prop.minLength 0
    maxLength := jsOrN prop.maxLength 0
    usage := if isElementRequired then UsageType.M else UsageType.O
    baseUsage := some (if isElementRequired then UsageType.M else UsageType.O)
    codeValues := codeValues
    baseCodes := codeValues }

/-- The element comparison used by `elements.sort((a, b) =>
a.position - b.position)`; a JS comparator-based sort is stable and
sorts ascending, which is exactly `List.insertionSort` with this
relation. -/
def byPosition (a b : Element) : Prop := a.position ≤ b.position

instance : DecidableRel byPosition := fun a b => Nat.decLe a.position b.position

/-- `importOpenAPISegment` (importer lines 178–253). Note that the
required-ness test looks up the *segment id* in the required list of
property keys, exactly as the source does. -/
def importOpenAPISegment (segmentId : String)
    (schema : OpenAPISchemaDefinition) (allSchemas : SchemaMap)
    (requiredSegments : List String) (maxUse : Nat) : Segment :=
  let isRequired := requiredSegments.contains segmentId
  let elements : List Element :=
    match schema.properties with
    | none => []
    | some props =>
      let propEntries := props.filter (fun p =>
        !(startsWithJS p.1 "Model") && p.1 != "$ref")
      let collected := propEntries.map (fun p =>
        importOpenAPIElement schema allSchemas p.1 p.2)
      List.insertionSort byPosition collected
  { id := uuidv4
    name := segmentId
    description := segmentId
    usage := if isRequired then UsageType.M else UsageType.O
    baseUsage := some (if isRequired then UsageType.M else UsageType.O)
    minUse := if isRequired then 1 else 0
    maxUse := maxUse
    baseMinUse := some (if isRequired then 1 else 0)
    baseMaxUse := some maxUse
    elements := elements }

/-! ## Schema-format recursive tree build (`importOpenAPILoop`,
importer lines 255–330, and the root walk of `importOpenAPIFormat`,
lines 357–404, which duplicates the same property loop verbatim) -/

/-- The reference-name computation of the property walk (importer
lines 272–281 and their verbatim duplicate at 362–371): a direct
`$ref`, or — for an `array`-typed property — the `items.$ref`, with
the schema path prefix stripped; `none` when the property carries no
reference. This is the Schema Reference Resolver's lookup key. -/
def propRefName (prop : OpenAPIProperty) : Option String :=
  if strTruthy prop.ref then some (stripRefPath (prop.ref.getD ""))
  else if (prop.type = some "array") ∧ strTruthy (prop.items.bind RefObj.ref) then
    some (stripRefPath ((prop.items.bind RefObj.ref).getD ""))
  else none

/-- `isArray ? (prop.maxItems || 999999) : 1` — the occurrence cap of
one property. -/
def propItemMaxUse (prop : OpenAPIProperty) : Nat :=
  if prop.type = some "array" then jsOrN prop.maxItems 999999 else 1

/-- One level of the structural walk: iterate the declared properties
in order, skip the reserved `Model` key, resolve each reference, and
dispatch on the marker attributes, threading the `itemOrder` counter.
`itemOrder` is incremented whenever the reference *resolves*,
whichever branch (loop-like, segment-like, or neither) is taken —
this mirrors `itemOrder++` sitting inside `if (refSchema)`.
The recursive descent into nested loops is abstracted as `recur`
(instantiated with the fuel-decremented `importOpenAPILoopF`); a
`none` from `recur` aborts the whole walk, modelling a
non-terminating recursion. -/
def processProps
    (recur : OpenAPISchemaDefinition → Nat → Bool → Option Nat → Option Loop)
    (allSchemas : SchemaMap) (requiredItems : List String) :
    List (String × OpenAPIProperty) → Nat →
    Option (List Segment × List Loop × Nat)
  | [], itemOrder => some ([], [], itemOrder)
  | (propKey, prop) :: rest, itemOrder =>
    if propKey = "Model" then
      processProps recur allSchemas requiredItems rest itemOrder
    else
      let itemMaxUse := propItemMaxUse prop
      match propRefName prop with
      | none => processProps recur allSchemas requiredItems rest itemOrder
      | some rn =>
        match findSchema allSchemas rn with
        | none => processProps recur allSchemas requiredItems rest itemOrder
        | some refSchema =>
          if strTruthy refSchema.xOpenediLoopId then
            match recur refSchema itemMaxUse (requiredItems.contains propKey)
                (some itemOrder) with
            | none => none
            | some nestedLoop =>
              match processProps recur allSchemas requiredItems rest
                  (itemOrder + 1) with
              | none => none
              | some (segs, loops, n) => some (segs, nestedLoop :: loops, n)
          else if strTruthy refSchema.xOpenediSegmentId then
            let segmentId := refSchema.xOpenediSegmentId.getD ""
            let segment := importOpenAPISegment segmentId refSchema allSchemas
              requiredItems itemMaxUse
            let segment := { segment with order := some itemOrder }
            match processProps recur allSchemas requiredItems rest
                (itemOrder + 1) with
            | none => none
            | some (segs, loops, n) => some (segment :: segs, loops, n)
          else
            processProps recur allSchemas requiredItems rest (itemOrder + 1)

/-- `importOpenAPILoop` (importer lines 255–330) with an explicit
fuel bound on the recursion depth; the source has no cycle guard, so
a reference cycle in the schema graph makes the real function recurse
without bound — here, return `none` for every fuel. -/
def importOpenAPILoopF : Nat → OpenAPISchemaDefinition → SchemaMap →
    Nat → Bool → Option Nat → Option Loop
  | 0, _, _, _, _, _ => none
  | fuel + 1, loopSchema, allSchemas, maxUse, isRequired, order =>
    let loopId := jsOr loopSchema.xOpenediLoopId "LOOP"
    let requiredItems := loopSchema.required.getD []
    match processProps
        (fun d mu rq od => importOpenAPILoopF fuel d allSchemas mu rq od)
        allSchemas requiredItems (loopSchema.properties.getD []) 0 with
    | none => none
    | some (segments, nestedLoops, _) =>
      some (Loop.mk uuidv4 loopId (some loopId)
        (if isRequired then UsageType.M else UsageType.O) none
        (if isRequired then 1 else 0) maxUse none
        segments nestedLoops none order
        (some (if isRequired then UsageType.M else UsageType.O))
        (some (if isRequired then 1 else 0)) (some maxUse))

/-! ## Transaction-set template registry and `importOpenAPIFormat` -/

/-- `TRANSACTION_SET_TEMPLATES` (importer lines 475–495):
code ↦ (name, description). -/
def TRANSACTION_SET_TEMPLATES : List (String × String × String) := [
  ("315", ("Status Details (Ocean)", "Ocean shipment status details")),
  ("810", ("Invoice", "Invoice transaction set")),
  ("850", ("Purchase Order", "Purchase order transaction set")),
  ("855", ("Purchase Order Acknowledgment", "PO acknowledgment")),
  ("856", ("Ship Notice/Manifest", "Advance ship notice (ASN)")),
  ("820", ("Payment Order/Remittance Advice", "Payment information")),
  ("990", ("Response to a Load Tender", "Load tender response")),
  ("997", ("Functional Acknowledgment", "FA transaction set")),
  ("999", ("Implementation Acknowledgment", "IA transaction set")),
  ("204", ("Motor Carrier Load Tender", "Load tender")),
  ("210", ("Motor Carrier Freight Details and Invoice", "Freight invoice")),
  ("214", ("Transportation Carrier Shipment Status Message", "Shipment status")),
  ("270", ("Eligibility, Coverage or Benefit Inquiry", "Healthcare eligibility inquiry")),
  ("271", ("Eligibility, Coverage or Benefit Information", "Healthcare eligibility response")),
  ("276", ("Health Care Claim Status Request", "Claim status request")),
  ("277", ("Health Care Claim Status Response", "Claim status response")),
  ("834", ("Benefit Enrollment and Maintenance", "Enrollment transaction")),
  ("835", ("Health Care Claim Payment/Advice", "Remittance advice")),
  ("837", ("Health Care Claim", "Healthcare claim (Professional/Institutional/Dental)"))]

/-- `TRANSACTION_SET_TEMPLATES[transactionSetId]` lookup. -/
def findTemplate (id : String) : Option (String × String) :=
  (TRANSACTION_SET_TEMPLATES.find? (fun p => p.1 == id)).map (fun p => p.2)

/-- `importOpenAPIFormat` (importer lines 332–438), fuelled like the
loop converter. The missing-root check happens before any recursion,
so it is decided at any positive fuel. -/
def importOpenAPIFormatF : Nat → OpenAPISchema →
    Option (Except String Specification)
  | 0, _ => none
  | fuel + 1, parsed =>
    let schemas := parsed.schemas.getD []
    match schemas.find? (fun p => strTruthy p.2.xOpenediMessageId) with
    | none => some (Except.error
        "No transaction set found in OpenAPI schema (missing x-openedi-message-id)")
    | some (_, transactionSetSchema) =>
      let transactionSetId := transactionSetSchema.xOpenediMessageId.getD ""
      let requiredItems := transactionSetSchema.required.getD []
      match processProps
          (fun d mu rq od => importOpenAPILoopF fuel d schemas mu rq od)
          schemas requiredItems (transactionSetSchema.properties.getD []) 0 with
      | none => none
      | some (segments, loops, _) =>
        let mainLoop : Loop := Loop.mk uuidv4 ("TS" ++ transactionSetId)
          (some ("Transaction Set " ++ transactionSetId)) UsageType.M none
          1 1 none segments loops none none (some UsageType.M) (some 1) (some 1)
        let template := findTemplate transactionSetId
        some (Except.ok {
          id := uuidv4
          metadata := {
            name := jsOr (template.map (fun p => p.1))
              ("Transaction Set " ++ transactionSetId)
            version := "1.0"
            transactionSet := transactionSetId
            transactionSetName := jsOr (template.map (fun p => p.1))
              transactionSetId
            ediVersion := "005010"
            createdDate := nowISO
            modifiedDate := nowISO
            baseSpecReference := some ("EdiNation/OpenAPI/" ++ transactionSetId) }
          loops := [mainLoop]
          examples := [] })

/-! ## Format dispatcher (`parseOpenEDIJson` / `parseAndImportSpec`,
importer lines 440–472) -/

/-- The three shapes a successfully parsed input document can take,
as distinguished by the dispatcher: an OpenAPI-format document
(`isOpenAPIFormat`: has both `openapi` and `components`), a legacy
array, or a single legacy object. -/
inductive ParsedJson where
  | openapi (s : OpenAPISchema)
  | arr (l : List OpenEDITransactionSet)
  | single (t : OpenEDITransactionSet)

/-- The combined entry point `parseAndImportSpec`. In the source,
`parseOpenEDIJson` smuggles an already-converted OpenAPI result out
through a thrown `{ isOpenAPI, spec }` object which the wrapper
catches and returns; the embedding collapses that control flow to the
returned value. Genuine errors (`Empty specification array`, the
missing-root error) are re-thrown by the wrapper and appear as
`Except.error`. `none` again means a non-terminating schema-format
recursion. -/
def parseAndImportSpecF (fuel : Nat) :
    ParsedJson → Option (Except String Specification)
  | .openapi s => importOpenAPIFormatF fuel s
  | .arr [] => some (Except.error "Empty specification array")
  | .arr (x :: _) => some (Except.ok (importOpenEDISpec x))
  | .single t => some (Except.ok (importOpenEDISpec t))

/-! ## Shared verification infrastructure -/

theorem listAllAttach {α} (l : List α) (p : α → Bool) :
    (l.attach.all fun x => p x.1) = l.all p := by
  rw [Bool.eq_iff_iff, List.all_eq_true, List.all_eq_true]
  exact ⟨fun h a ha => h ⟨a, ha⟩ (List.mem_attach _ _), fun h x _ => h x.1 x.2⟩

/-- Hereditary Boolean check over a loop tree: `pL` must hold at every
loop node and `pS` at every segment of the tree. -/
def Loop.allB (pL : Loop → Bool) (pS : Segment → Bool) : Loop → Bool
  | Loop.mk i n d u cd mn mx cm segs loops v o bu bmn bmx =>
    pL (Loop.mk i n d u cd mn mx cm segs loops v o bu bmn bmx) &&
    segs.all pS && (loops.attach.all fun x => Loop.allB pL pS x.1)
decreasing_by
  simp only [Loop.mk.sizeOf_spec]
  have h := List.sizeOf_lt_of_mem x.2
  omega

theorem Loop.allB_mk (pL : Loop → Bool) (pS : Segment → Bool)
    (i n : String) (d : Option String) (u : UsageType) (cd : Option String)
    (mn mx : Nat) (cm : Option String) (segs : List Segment)
    (loops : List Loop) (v : Option (List Variant)) (o : Option Nat)
    (bu : Option UsageType) (bmn bmx : Option Nat) :
    Loop.allB pL pS (Loop.mk i n d u cd mn mx cm segs loops v o bu bmn bmx) =
    (pL (Loop.mk i n d u cd mn mx cm segs loops v o bu bmn bmx) &&
     segs.all pS && loops.all (Loop.allB pL pS)) := by
  rw [Loop.allB, listAllAttach]

/-- Hereditary check over a whole specification. -/
def Specification.allB (pL : Loop → Bool) (pS : Segment → Bool)
    (spec : Specification) : Bool :=
  spec.loops.all (Loop.allB pL pS)

/-- Lifts a per-specification check over the fuelled converter result:
trivially true on an error or a fuel-exhausted run. -/
def resultAllB (pL : Loop → Bool) (pS : Segment → Bool)
    (r : Option (Except String Specification)) : Bool :=
  match r with
  | some (Except.ok spec) => Specification.allB pL pS spec
  | _ => true

/-! ## Claim C1 — cycles in the schema reference graph -/

/-- A loop-marked definition whose single property references the
definition itself: the smallest reference cycle. -/
def selfRefLoopDef : OpenAPISchemaDefinition :=
  { xOpenediLoopId := some "A",
    properties := some [("P", { ref := some "#/components/schemas/A" })] }

/-- The mapping containing just the self-referencing definition. -/
def selfRefSchemas : SchemaMap := [("A", selfRefLoopDef)]

/-- Symbolic one-step evaluation of the property walk on the
self-referencing definition: the walk immediately recurses into the
very same definition. -/
theorem processProps_selfRef
    (recur : OpenAPISchemaDefinition → Nat → Bool → Option Nat → Option Loop) :
    processProps recur selfRefSchemas (selfRefLoopDef.required.getD [])
      (selfRefLoopDef.properties.getD []) 0 =
    match recur selfRefLoopDef 1 false (some 0) with
    | none => none
    | some l => some ([], [l], 1) := by
  rfl

/-- **C1** (code_bug evidence). The claim — and the specification —
say reference cycles in the source schema graph are rejected or
ignored, never followed, so `importOpenAPILoop` terminates on every
input. The code has no cycle guard: on a loop-marked definition that
references itself the recursion is entered again at every step, so no
recursion budget whatsoever suffices — the real function recurses
until the JS stack overflows. -/
theorem importOpenAPILoopF_selfRef_diverges :
    ∀ fuel mu rq od,
      importOpenAPILoopF fuel selfRefLoopDef selfRefSchemas mu rq od = none := by
  intro fuel
  induction fuel with
  | zero => intro _ _ _; rfl
  | succ fuel ih =>
    intro mu rq od
    have h := processProps_selfRef
      (fun d mu rq od => importOpenAPILoopF fuel d selfRefSchemas mu rq od)
    rw [ih 1 false (some 0)] at h
    simp only [importOpenAPILoopF, h]

/-! ## Claim C6 — cardinality derivation -/

/-- A legacy segment whose `Max` field is present and equal to `0`. -/
def maxZeroSegment : OpenEDISegment := { Id := "GS", Max := some 0 }

/-- **C6 counterexample.** The claim says the legacy converter takes
the maximum occurrence from the source's `Max` field, defaulting to 1
only when absent. A present `Max = 0` is falsy for JS `||`, so the
converter yields `maxUse = 1` where the claim requires `0`. -/
theorem convertSegment_maxZero :
    maxZeroSegment.Max = some 0 ∧ (convertSegment maxZeroSegment).maxUse = 1 :=
  ⟨rfl, rfl⟩

/-- The min-use/usage relation claimed for segments. -/
def segMinUseB (s : Segment) : Bool :=
  s.minUse == (if s.usage = UsageType.M then 1 else 0)

/-- The min-use/usage relation claimed for loops. -/
def loopMinUseB (l : Loop) : Bool :=
  l.minUse == (if l.usage = UsageType.M then 1 else 0)

theorem listAllMap {α β} (l : List α) (f : α → β) (p : β → Bool)
    (h : ∀ a ∈ l, p (f a) = true) : (l.map f).all p = true := by
  refine List.all_eq_true.mpr (fun b hb => ?_)
  obtain ⟨a, ha, rfl⟩ := List.mem_map.mp hb
  exact h a ha

theorem processProps_allB (pL : Loop → Bool) (pS : Segment → Bool)
    (recur : OpenAPISchemaDefinition → Nat → Bool → Option Nat → Option Loop)
    (hS : ∀ sid d sm req mu (n : Nat),
      pS { importOpenAPISegment sid d sm req mu with order := some n } = true)
    (hrec : ∀ d mu rq od l, recur d mu rq od = some l → Loop.allB pL pS l = true)
    (sm : SchemaMap) (req : List String) :
    ∀ props n segs loops m,
      processProps recur sm req props n = some (segs, loops, m) →
      segs.all pS = true ∧ loops.all (Loop.allB pL pS) = true := by
  intro props
  induction props with
  | nil =>
    intro n segs loops m h
    simp only [processProps, Option.some.injEq, Prod.mk.injEq] at h
    obtain ⟨h1, h2, _⟩ := h
    subst h1; subst h2
    exact ⟨rfl, rfl⟩
  | cons kp rest ih =>
    obtain ⟨k, p⟩ := kp
    intro n segs loops m h
    simp only [processProps] at h
    split at h
    · exact ih _ _ _ _ h
    · split at h
      · exact ih _ _ _ _ h
      · split at h
        · exact ih _ _ _ _ h
        · split at h
          · split at h
            · exact (Option.noConfusion h)
            · rename_i nestedLoop hne
              split at h
              · exact (Option.noConfusion h)
              · rename_i segs' loops' n' hpp
                injection h with h
                injection h with hsegs h
                injection h with hloops hm
                subst hsegs; subst hloops
                obtain ⟨hs, hl⟩ := ih _ _ _ _ hpp
                refine ⟨hs, ?_⟩
                simp only [List.all_cons, hl, Bool.and_true]
                exact hrec _ _ _ _ _ hne
          · split at h
            · split at h
              · exact (Option.noConfusion h)
              · rename_i segs' loops' n' hpp
                injection h with h
                injection h with hsegs h
                injection h with hloops hm
                subst hsegs; subst hloops
                obtain ⟨hs, hl⟩ := ih _ _ _ _ hpp
                refine ⟨?_, hl⟩
                simp only [List.all_cons, hs, Bool.and_true]
                exact hS _ _ _ _ _ _
            · exact ih _ _ _ _ h

theorem importOpenAPILoopF_allB (pL : Loop → Bool) (pS : Segment → Bool)
    (hS : ∀ sid d sm req mu (n : Nat),
      pS { importOpenAPISegment sid d sm req mu with order := some n } = true)
    (hL : ∀ (lid : String) (isReq : Bool) (mu : Nat) (od : Option Nat)
        (segs : List Segment) (loops : List Loop),
      segs.all pS = true → loops.all (Loop.allB pL pS) = true →
      pL (Loop.mk uuidv4 lid (some lid)
        (if isReq then UsageType.M else UsageType.O) none
        (if isReq then 1 else 0) mu none segs loops none od
        (some (if isReq then UsageType.M else UsageType.O))
        (some (if isReq then 1 else 0)) (some mu)) = true) :
    ∀ fuel d sm mu rq od l,
      importOpenAPILoopF fuel d sm mu rq od = some l →
      Loop.allB pL pS l = true := by
  intro fuel
  induction fuel with
  | zero => intro d sm mu rq od l h; exact (Option.noConfusion h)
  | succ fuel ih =>
    intro d sm mu rq od l h
    simp only [importOpenAPILoopF] at h
    split at h
    · exact (Option.noConfusion h)
    · rename_i segs nestedLoops nfin hpp
      injection h with h
      subst h
      obtain ⟨hs, hl⟩ := processProps_allB pL pS _ hS
        (fun d' mu' rq' od' l' hh => ih d' sm mu' rq' od' l' hh) sm _ _ _ _ _ _ hpp
      rw [Loop.allB_mk]
      simp only [hs, hl, Bool.and_true]
      exact hL _ _ _ _ _ _ hs hl

theorem importOpenAPIFormatF_allB (pL : Loop → Bool) (pS : Segment → Bool)
    (hS : ∀ sid d sm req mu (n : Nat),
      pS { importOpenAPISegment sid d sm req mu with order := some n } = true)
    (hL : ∀ (lid : String) (isReq : Bool) (mu : Nat) (od : Option Nat)
        (segs : List Segment) (loops : List Loop),
      segs.all pS = true → loops.all (Loop.allB pL pS) = true →
      pL (Loop.mk uuidv4 lid (some lid)
        (if isReq then UsageType.M else UsageType.O) none
        (if isReq then 1 else 0) mu none segs loops none od
        (some (if isReq then UsageType.M else UsageType.O))
        (some (if isReq then 1 else 0)) (some mu)) = true)
    (hMain : ∀ (tsId : String) (segs : List Segment) (loops : List Loop),
      segs.all pS = true → loops.all (Loop.allB pL pS) = true →
      pL (Loop.mk uuidv4 ("TS" ++ tsId) (some ("Transaction Set " ++ tsId))
        UsageType.M none 1 1 none segs loops none none
        (some UsageType.M) (some 1) (some 1)) = true) :
    ∀ fuel s, resultAllB pL pS (importOpenAPIFormatF fuel s) = true := by
  intro fuel s
  match fuel with
  | 0 => rfl
  | fuel + 1 =>
    simp only [importOpenAPIFormatF]
    split
    · rfl
    · rename_i kv hfind
      simp only [resultAllB]
      split
      · rename_i spec hspec
        split at hspec
        · exact (Option.noConfusion hspec)
        · rename_i segs loops nfin hpp
          injection hspec with hspec
          injection hspec with hspec
          subst hspec
          obtain ⟨hs, hl⟩ := processProps_allB pL pS _ hS
            (fun d' mu' rq' od' l' hh =>
              importOpenAPILoopF_allB pL pS hS hL fuel d' _ mu' rq' od' l' hh)
            _ _ _ _ _ _ _ hpp
          simp only [Specification.allB, List.all_cons, List.all_nil, Bool.and_true]
          rw [Loop.allB_mk]
          simp only [hs, hl, Bool.and_true]
          exact hMain _ _ _ hs hl
      · rfl

theorem convertLoop_allB (pL : Loop → Bool) (pS : Segment → Bool)
    (hSeg : ∀ s, pS (convertSegment s) = true)
    (hLoop : ∀ (pId pName : String) (pReq : Option String) (pMax : Option Nat)
        (segs : List Segment) (loops : List Loop),
      segs.all pS = true → loops.all (Loop.allB pL pS) = true →
      pL (Loop.mk uuidv4 (jsOrS pId pName) (some pName) (parseUsage pReq) none
        (if parseUsage pReq = UsageType.M then 1 else 0) (jsOrN pMax 1) none
        segs loops none none (some (parseUsage pReq))
        (some (if parseUsage pReq = UsageType.M then 1 else 0))
        (some (jsOrN pMax 1))) = true) :
    ∀ l, Loop.allB pL pS (convertLoop l) = true
  | OpenEDILoop.mk pId pName pReq pMax pSegments pLoops => by
    simp only [convertLoop]
    rw [Loop.allB_mk]
    have hsegs : ((pSegments.getD []).map convertSegment).all pS = true :=
      listAllMap _ _ _ (fun s _ => hSeg s)
    have hloops : ((pLoops.getD []).attach.map (fun x => convertLoop x.1)).all
        (Loop.allB pL pS) = true :=
      listAllMap _ _ _ (fun x _ => convertLoop_allB pL pS hSeg hLoop x.1)
    rw [hsegs, hloops]
    simp only [Bool.and_true]
    exact hLoop pId pName pReq pMax _ _ hsegs hloops
decreasing_by
  rcases pLoops with _ | ls
  · exact absurd x.2 (List.not_mem_nil _)
  · simp only [OpenEDILoop.mk.sizeOf_spec, Option.some.sizeOf_spec]
    have h := List.sizeOf_lt_of_mem x.2
    simp only [Option.getD] at h
    omega

theorem importOpenEDISpec_allB (pL : Loop → Bool) (pS : Segment → Bool)
    (hSeg : ∀ s, pS (convertSegment s) = true)
    (hLoop : ∀ (pId pName : String) (pReq : Option String) (pMax : Option Nat)
        (segs : List Segment) (loops : List Loop),
      segs.all pS = true → loops.all (Loop.allB pL pS) = true →
      pL (Loop.mk uuidv4 (jsOrS pId pName) (some pName) (parseUsage pReq) none
        (if parseUsage pReq = UsageType.M then 1 else 0) (jsOrN pMax 1) none
        segs loops none none (some (parseUsage pReq))
        (some (if parseUsage pReq = UsageType.M then 1 else 0))
        (some (jsOrN pMax 1))) = true) :
    ∀ t, Specification.allB pL pS (importOpenEDISpec t) = true := by
  intro t
  simp only [importOpenEDISpec, Specification.allB]
  exact listAllMap _ _ _ (fun l _ => convertLoop_allB pL pS hSeg hLoop l)

theorem jsOrN_eq (x : Option Nat) (d : Nat) :
    jsOrN x d = match x with | some (n+1) => n+1 | _ => d := by
  rcases x with _ | ⟨_ | n⟩ <;> rfl

theorem segMinUseB_importOpenAPISegment (sid : String)
    (d : OpenAPISchemaDefinition) (sm : SchemaMap) (req : List String)
    (mu n : Nat) :
    segMinUseB { importOpenAPISegment sid d sm req mu with order := some n } = true := by
  cases hc : req.contains sid <;>
    simp [segMinUseB, importOpenAPISegment, hc]

theorem segMinUseB_convertSegment (s : OpenEDISegment) :
    segMinUseB (convertSegment s) = true := by
  by_cases h : parseUsage s.Req = UsageType.M <;>
    simp [segMinUseB, convertSegment, h]

/-- **C6 (amended).** For every Segment and Loop produced by either
converter, `minUse = 1` iff usage is Mandatory and `minUse = 0`
otherwise; in the legacy converter the maximum occurrence is taken
from the source `Max` field, defaulting to 1 when the field is absent
*or zero* (JS `||` treats a present 0 as falsy). -/
theorem cardinality_derivation :
    (∀ t, Specification.allB loopMinUseB segMinUseB (importOpenEDISpec t) = true) ∧
    (∀ fuel s, resultAllB loopMinUseB segMinUseB (importOpenAPIFormatF fuel s) = true) ∧
    (∀ seg : OpenEDISegment, (convertSegment seg).maxUse =
      (match seg.Max with | some (n+1) => n+1 | _ => 1 : Nat)) ∧
    (∀ (pId pName : String) (pReq : Option String) (pMax : Option Nat)
        (pSegs : Option (List OpenEDISegment)) (pLoops : Option (List OpenEDILoop)),
      (convertLoop (OpenEDILoop.mk pId pName pReq pMax pSegs pLoops)).maxUse =
      (match pMax with | some (n+1) => n+1 | _ => 1 : Nat)) := by
  refine ⟨?_, ?_, ?_, ?_⟩
  · refine importOpenEDISpec_allB _ _ segMinUseB_convertSegment ?_
    intro pId pName pReq pMax segs loops _ _
    by_cases h : parseUsage pReq = UsageType.M <;>
      simp [loopMinUseB, Loop.minUse, Loop.usage, h]
  · refine importOpenAPIFormatF_allB _ _
      (fun sid d sm req mu n => segMinUseB_importOpenAPISegment sid d sm req mu n) ?_ ?_
    · intro lid isReq mu od segs loops _ _
      cases isReq <;> rfl
    · intro tsId segs loops _ _
      rfl
  · intro seg
    rw [show (convertSegment seg).maxUse = jsOrN seg.Max 1 from rfl, jsOrN_eq]
  · intro pId pName pReq pMax pSegs pLoops
    simp only [convertLoop, Loop.maxUse]
    rw [jsOrN_eq]

/-! ## Claim C2 — base-value snapshot -/

/-- A segment-like definition with one property declaring an *empty*
inline enumeration. -/
def emptyEnumSegDef : OpenAPISchemaDefinition :=
  { xOpenediSegmentId := some "QQ",
    properties := some [("Code_01", { enum := some [] })] }

/-- **C2 counterexample.** The claim says an Element with an empty
source code list has both `codeValues` and `baseCodes` omitted. In the
schema converter an empty `enum` array is truthy in JS, so the element
built from `emptyEnumSegDef` carries *present* (empty, equal) lists
instead of omitted fields. -/
theorem importOpenAPISegment_emptyEnum_present :
    ((importOpenAPISegment "QQ" emptyEnumSegDef [] [] 1).elements.map
      (fun e => (e.codeValues, e.baseCodes))) = [(some [], some [])] := rfl

/-- Base-snapshot equations for an element: `baseUsage == usage` and
`baseCodes` value-equal to `codeValues` (both `none` together). -/
def elBaseB (e : Element) : Bool :=
  (e.baseUsage == some e.usage) && (e.baseCodes == e.codeValues)

/-- Base-snapshot equations for a segment and all its elements. -/
def segBaseB (s : Segment) : Bool :=
  (s.baseUsage == some s.usage) && (s.baseMinUse == some s.minUse) &&
  (s.baseMaxUse == some s.maxUse) && s.elements.all elBaseB

/-- Base-snapshot equations for a loop node. -/
def loopBaseB (l : Loop) : Bool :=
  (l.baseUsage == some l.usage) && (l.baseMinUse == some l.minUse) &&
  (l.baseMaxUse == some l.maxUse)

theorem elBaseB_convertElement (el : OpenEDIElement) (pos : Nat) :
    elBaseB (convertElement el pos) = true := by
  simp [elBaseB, convertElement]

theorem segBaseB_convertSegment (s : OpenEDISegment) :
    segBaseB (convertSegment s) = true := by
  simp only [segBaseB, convertSegment]
  simp only [beq_self_eq_true, Bool.true_and, Bool.and_eq_true, and_true, true_and]
  exact listAllMap _ _ _
    (fun (p : Nat × OpenEDIElement) _ => elBaseB_convertElement p.2 (p.1 + 1))

theorem elBaseB_importOpenAPIElement (d : OpenAPISchemaDefinition)
    (sm : SchemaMap) (k : String) (p : OpenAPIProperty) :
    elBaseB (importOpenAPIElement d sm k p) = true := by
  simp [elBaseB, importOpenAPIElement]

theorem segBaseB_importOpenAPISegment (sid : String)
    (d : OpenAPISchemaDefinition) (sm : SchemaMap) (req : List String)
    (mu n : Nat) :
    segBaseB { importOpenAPISegment sid d sm req mu with order := some n } = true := by
  simp only [segBaseB, importOpenAPISegment]
  have helts : ∀ props : List (String × OpenAPIProperty),
      (List.insertionSort byPosition
        ((props.filter (fun p => !(startsWithJS p.1 "Model") && p.1 != "$ref")).map
          (fun p => importOpenAPIElement d sm p.1 p.2))).all elBaseB = true := by
    intro props
    refine List.all_eq_true.mpr (fun e he => ?_)
    have he' := (List.mem_insertionSort byPosition).mp he
    obtain ⟨p, _, rfl⟩ := List.mem_map.mp he'
    exact elBaseB_importOpenAPIElement d sm p.1 p.2
  cases hp : d.properties with
  | none => simp
  | some props => simp [helts props]

/-- **C2 (amended).** Immediately after import every produced entity
satisfies the base-snapshot equations; in the legacy converter an
element's code values (and base codes) are omitted exactly when the
source code list is empty or absent; in the schema converter both
fields are always equal, but an *empty* enumeration yields present,
equal empty lists rather than omitted fields. -/
theorem base_snapshot :
    (∀ t, Specification.allB loopBaseB segBaseB (importOpenEDISpec t) = true) ∧
    (∀ fuel s, resultAllB loopBaseB segBaseB (importOpenAPIFormatF fuel s) = true) ∧
    (∀ el pos, ((convertElement el pos).codeValues = none ↔ el.Codes.getD [] = [])) := by
  refine ⟨?_, ?_, ?_⟩
  · refine importOpenEDISpec_allB _ _ segBaseB_convertSegment ?_
    intro pId pName pReq pMax segs loops _ _
    simp [loopBaseB, Loop.baseUsage, Loop.baseMinUse, Loop.baseMaxUse,
      Loop.usage, Loop.minUse, Loop.maxUse]
  · refine importOpenAPIFormatF_allB _ _
      (fun sid d sm req mu n => segBaseB_importOpenAPISegment sid d sm req mu n) ?_ ?_
    · intro lid isReq mu od segs loops _ _
      simp [loopBaseB, Loop.baseUsage, Loop.baseMinUse, Loop.baseMaxUse,
        Loop.usage, Loop.minUse, Loop.maxUse]
    · intro tsId segs loops _ _
      simp [loopBaseB, Loop.baseUsage, Loop.baseMinUse, Loop.baseMaxUse,
        Loop.usage, Loop.minUse, Loop.maxUse]
  · intro el pos
    simp only [convertElement]
    cases hc : el.Codes with
    | none => simp
    | some codes => cases codes <;> simp

/-! ## Claims C10, C9, C8 -/

/-- No Conditional usage in a segment or its elements. -/
def segNoCondB (s : Segment) : Bool :=
  (s.usage != UsageType.C) && s.elements.all (fun e => e.usage != UsageType.C)

/-- No Conditional usage at a loop node. -/
def loopNoCondB (l : Loop) : Bool :=
  l.usage != UsageType.C

theorem elNoCond_importOpenAPIElement (d : OpenAPISchemaDefinition)
    (sm : SchemaMap) (k : String) (p : OpenAPIProperty) :
    ((importOpenAPIElement d sm k p).usage != UsageType.C) = true := by
  simp only [importOpenAPIElement]
  cases hc : (d.required.getD []).contains k <;> simp [hc]

theorem segNoCond_importOpenAPISegment (sid : String)
    (d : OpenAPISchemaDefinition) (sm : SchemaMap) (req : List String)
    (mu n : Nat) :
    segNoCondB { importOpenAPISegment sid d sm req mu with order := some n } = true := by
  simp only [segNoCondB, importOpenAPISegment]
  have helts : ∀ props : List (String × OpenAPIProperty),
      (List.insertionSort byPosition
        ((props.filter (fun p => !(startsWithJS p.1 "Model") && p.1 != "$ref")).map
          (fun p => importOpenAPIElement d sm p.1 p.2))).all
        (fun e => e.usage != UsageType.C) = true := by
    intro props
    refine List.all_eq_true.mpr (fun e he => ?_)
    have he' := (List.mem_insertionSort byPosition).mp he
    obtain ⟨p, _, rfl⟩ := List.mem_map.mp he'
    exact elNoCond_importOpenAPIElement d sm p.1 p.2
  cases hp : d.properties with
  | none => cases hc : req.contains sid <;> simp [hc]
  | some props => cases hc : req.contains sid <;> simp [hc, helts props]

/-- **C10.** Every Loop, Segment and Element produced by the
schema-format converter has usage Mandatory or Optional, never
Conditional (usage is derived solely from required-membership, the
synthetic top-level loop being always Mandatory); the Conditional
category is reachable only through the legacy converter's requirement
tokens, e.g. a segment with `Req: "C"`. -/
theorem schema_no_conditional :
    (∀ fuel s, resultAllB loopNoCondB segNoCondB (importOpenAPIFormatF fuel s) = true) ∧
    (convertSegment { Id := "ST", Req := some "C" }).usage = UsageType.C := by
  refine ⟨?_, rfl⟩
  refine importOpenAPIFormatF_allB _ _
    (fun sid d sm req mu n => segNoCond_importOpenAPISegment sid d sm req mu n) ?_ ?_
  · intro lid isReq mu od segs loops _ _
    cases isReq <;> simp [loopNoCondB, Loop.usage]
  · intro tsId segs loops _ _
    simp [loopNoCondB, Loop.usage]

/-- **C9.** On legacy input the dispatcher fails with the "Empty
specification array" condition exactly when the parsed array is
empty, converts the first element of a non-empty array, converts a
single object directly, and in both non-failing cases returns the
normalized Specification produced by the (total) legacy converter. -/
theorem legacy_dispatch :
    (∀ fuel (l : List OpenEDITransactionSet),
      parseAndImportSpecF fuel (ParsedJson.arr l) =
        some (match l with
          | [] => Except.error "Empty specification array"
          | x :: _ => Except.ok (importOpenEDISpec x))) ∧
    (∀ fuel t, parseAndImportSpecF fuel (ParsedJson.single t) =
      some (Except.ok (importOpenEDISpec t))) := by
  constructor
  · intro fuel l
    cases l <;> rfl
  · intro fuel t
    rfl

/-- **C8.** A property whose reference names a definition absent from
the mapping is recovered silently: the walk drops the property —
producing no Segment or Loop and not advancing the order counter —
and processing of the remaining properties continues unchanged; no
error value exists on this path at all. -/
theorem unresolvable_reference_skipped
    (recur : OpenAPISchemaDefinition → Nat → Bool → Option Nat → Option Loop)
    (sm : SchemaMap) (req : List String) (propKey : String)
    (prop : OpenAPIProperty) (rest : List (String × OpenAPIProperty))
    (n : Nat) (rn : String)
    (href : propRefName prop = some rn)
    (hmiss : findSchema sm rn = none) :
    processProps recur sm req ((propKey, prop) :: rest) n =
    processProps recur sm req rest n := by
  by_cases hk : propKey = "Model"
  · simp [processProps, hk]
  · simp only [processProps, if_neg hk, href, hmiss]

/-- Witness: a concrete unresolvable reference is dropped. -/
theorem unresolvable_reference_skipped_witness :
    propRefName { ref := some "#/components/schemas/Nowhere" } = some "Nowhere" ∧
    findSchema [] "Nowhere" = none ∧
    processProps (fun _ _ _ _ => none) [] []
      [("Ghost", { ref := some "#/components/schemas/Nowhere" })] 0 =
    processProps (fun _ _ _ _ => none) [] [] [] 0 :=
  ⟨rfl, rfl, unresolvable_reference_skipped (fun _ _ _ _ => none) [] [] "Ghost"
    { ref := some "#/components/schemas/Nowhere" } [] 0 "Nowhere" rfl rfl⟩

/-! ## Claim C7 — missing transaction-set root -/

/-- The error message raised by `importOpenAPIFormat` when no
definition carries the message-id marker. -/
def missingRootMsg : String :=
  "No transaction set found in OpenAPI schema (missing x-openedi-message-id)"

/-- No definition in the mapping carries a truthy message-id marker. -/
def noMessageIdB (s : OpenAPISchema) : Bool :=
  (s.schemas.getD []).all (fun p => !(strTruthy p.2.xOpenediMessageId))

/-- Result discipline of one schema-format run: an error must be
exactly the missing-root message with no marked definition present,
and a success must carry the first marked definition's id as
`metadata.transactionSet`; a fuel-exhausted run checks vacuously. -/
def formatRunDiscipline (s : OpenAPISchema)
    (r : Option (Except String Specification)) : Bool :=
  match r with
  | none => true
  | some (Except.error e) => (e == missingRootMsg) && noMessageIdB s
  | some (Except.ok spec) =>
    match (s.schemas.getD []).find? (fun p => strTruthy p.2.xOpenediMessageId) with
    | none => false
    | some kv => spec.metadata.transactionSet == kv.2.xOpenediMessageId.getD ""

theorem importOpenAPIFormatF_discipline :
    ∀ fuel s, formatRunDiscipline s (importOpenAPIFormatF fuel s) = true := by
  intro fuel s
  match fuel with
  | 0 => rfl
  | fuel + 1 =>
    simp only [importOpenAPIFormatF]
    split
    · rename_i hfind
      simp only [formatRunDiscipline, Bool.and_eq_true]
      refine ⟨rfl, ?_⟩
      simp only [noMessageIdB]
      refine List.all_eq_true.mpr (fun p hp => ?_)
      have hnp := List.find?_eq_none.mp hfind p hp
      simpa using hnp
    · rename_i kv hfind
      split
      · rfl
      · rename_i segs loops nfin hpp
        simp only [formatRunDiscipline, hfind]
        simp

theorem importOpenAPIFormatF_noRoot (fuel : Nat) (s : OpenAPISchema)
    (h : noMessageIdB s = true) :
    importOpenAPIFormatF (fuel + 1) s = some (Except.error missingRootMsg) := by
  simp only [importOpenAPIFormatF]
  have hf : (s.schemas.getD []).find?
      (fun p => strTruthy p.2.xOpenediMessageId) = none :=
    List.find?_eq_none.mpr (fun p hp => by
      have hh := List.all_eq_true.mp h p hp
      simpa using hh)
  rw [hf]
  rfl

/-- A marked transaction-set root whose single property references
the cyclic loop definition `A`. -/
def cycRootDef : OpenAPISchemaDefinition :=
  { xOpenediMessageId := some "810",
    properties := some [("PA", { ref := some "#/components/schemas/A" })] }

/-- A schema-format document with a message-id root *and* a reference
cycle beneath it. -/
def cycSchema : OpenAPISchema :=
  { openapi := "3.0.0",
    schemas := some [("Root", cycRootDef), ("A", selfRefLoopDef)] }

theorem processProps_selfRef_cyc
    (recur : OpenAPISchemaDefinition → Nat → Bool → Option Nat → Option Loop) :
    processProps recur [("Root", cycRootDef), ("A", selfRefLoopDef)]
      (selfRefLoopDef.required.getD [])
      (selfRefLoopDef.properties.getD []) 0 =
    match recur selfRefLoopDef 1 false (some 0) with
    | none => none
    | some l => some ([], [l], 1) := by
  rfl

theorem importOpenAPILoopF_selfRef_cyc :
    ∀ fuel mu rq od, importOpenAPILoopF fuel selfRefLoopDef
      [("Root", cycRootDef), ("A", selfRefLoopDef)] mu rq od = none := by
  intro fuel
  induction fuel with
  | zero => intro _ _ _; rfl
  | succ fuel ih =>
    intro mu rq od
    have h := processProps_selfRef_cyc
      (fun d mu rq od => importOpenAPILoopF fuel d
        [("Root", cycRootDef), ("A", selfRefLoopDef)] mu rq od)
    rw [ih 1 false (some 0)] at h
    simp only [importOpenAPILoopF, h]

theorem processProps_cycRoot
    (recur : OpenAPISchemaDefinition → Nat → Bool → Option Nat → Option Loop) :
    processProps recur [("Root", cycRootDef), ("A", selfRefLoopDef)]
      (cycRootDef.required.getD [])
      (cycRootDef.properties.getD []) 0 =
    match recur selfRefLoopDef 1 false (some 0) with
    | none => none
    | some l => some ([], [l], 1) := by
  rfl

theorem importOpenAPIFormatF_cyc_diverges :
    ∀ fuel, importOpenAPIFormatF fuel cycSchema = none := by
  intro fuel
  match fuel with
  | 0 => rfl
  | fuel + 1 =>
    have h := processProps_cycRoot
      (fun d mu rq od => importOpenAPILoopF fuel d
        [("Root", cycRootDef), ("A", selfRefLoopDef)] mu rq od)
    rw [importOpenAPILoopF_selfRef_cyc fuel 1 false (some 0)] at h
    have h' : processProps (fun d mu rq od => importOpenAPILoopF fuel d
        (cycSchema.schemas.getD []) mu rq od)
        (cycSchema.schemas.getD [])
        (cycRootDef.required.getD []) (cycRootDef.properties.getD []) 0 = none := h
    simp only [importOpenAPIFormatF]
    rw [show ((cycSchema.schemas.getD []).find?
        (fun p => strTruthy p.2.xOpenediMessageId)) =
        some ("Root", cycRootDef) from rfl]
    dsimp only
    rw [h']


/-- **C7 (code_bug evidence).** The error-discipline half of the claim
holds: a run errors exactly when no definition carries the message-id
marker, the error is precisely the missing-root message, and every
successful run's `metadata.transactionSet` equals the first marked
definition's marker value. The completion half is false: with a
marked root present but a reference cycle beneath it (`cycSchema`)
the conversion never completes at any recursion budget — the code
recurses unboundedly where the claim promises a returned
Specification. -/
theorem missing_root_error_iff :
    (∀ fuel s, formatRunDiscipline s (importOpenAPIFormatF fuel s) = true) ∧
    (∀ fuel s, noMessageIdB s = true →
      importOpenAPIFormatF (fuel + 1) s = some (Except.error missingRootMsg)) ∧
    ((cycSchema.schemas.getD []).any
       (fun p => strTruthy p.2.xOpenediMessageId) = true ∧
     ∀ fuel, importOpenAPIFormatF fuel cycSchema = none) :=
  ⟨importOpenAPIFormatF_discipline, importOpenAPIFormatF_noRoot,
   ⟨rfl, importOpenAPIFormatF_cyc_diverges⟩⟩

/-- Witness for `missing_root_error_iff`: a concrete markerless
document does produce the missing-root error. -/
theorem missing_root_error_iff_witness :
    noMessageIdB { openapi := "3.0.0" } = true ∧
    importOpenAPIFormatF 1 { openapi := "3.0.0" } =
      some (Except.error missingRootMsg) :=
  ⟨rfl, missing_root_error_iff.2.1 0 { openapi := "3.0.0" } rfl⟩

/-! ## Claim C5 — element ordering within a segment -/

instance : IsTotal Element byPosition :=
  ⟨fun a b => Nat.le_total a.position b.position⟩

instance : IsTrans Element byPosition :=
  ⟨fun _ _ _ h1 h2 => Nat.le_trans h1 h2⟩

/-- The elements of a segment-like definition in property declaration
order — the list the converter collects *before* the position sort. -/
def declaredElements (schema : OpenAPISchemaDefinition) (sm : SchemaMap) :
    List Element :=
  match schema.properties with
  | none => []
  | some props =>
    (props.filter (fun p => !(startsWithJS p.1 "Model") && p.1 != "$ref")).map
      (fun p => importOpenAPIElement schema sm p.1 p.2)

theorem importOpenAPISegment_elements (sid : String)
    (d : OpenAPISchemaDefinition) (sm : SchemaMap) (req : List String)
    (mu : Nat) :
    (importOpenAPISegment sid d sm req mu).elements =
    List.insertionSort byPosition (declaredElements d sm) := by
  cases hp : d.properties <;> simp [importOpenAPISegment, declaredElements, hp]

theorem pairwiseOfMem {α} {r : α → α → Prop} {l : List α}
    (h : ∀ a ∈ l, ∀ b ∈ l, r a b) : l.Pairwise r := by
  induction l with
  | nil => exact List.Pairwise.nil
  | cons a t ih =>
    refine List.Pairwise.cons (fun b hb => h a (by simp) b (by simp [hb])) (ih ?_)
    intro x hx y hy
    exact h x (by simp [hx]) y (by simp [hy])

/-- Stability of the position sort, expressed through filtering: the
subsequence of elements at any fixed position is unchanged by the
sort. -/
theorem insertionSort_filter_position (l : List Element) (p : Nat) :
    (List.insertionSort byPosition l).filter (fun e => e.position == p) =
    l.filter (fun e => e.position == p) := by
  have hpair : (l.filter (fun e => e.position == p)).Pairwise byPosition := by
    refine pairwiseOfMem (fun a ha b hb => ?_)
    have ha' := (List.mem_filter.mp ha).2
    have hb' := (List.mem_filter.mp hb).2
    have : a.position = p := by simpa using ha'
    have hbp : b.position = p := by simpa using hb'
    simp [byPosition, this, hbp]
  have hsub : List.Sublist (l.filter (fun e => e.position == p))
      (List.insertionSort byPosition l) :=
    List.sublist_insertionSort hpair (List.filter_sublist l)
  have hsub2 : List.Sublist (l.filter (fun e => e.position == p))
      ((List.insertionSort byPosition l).filter (fun e => e.position == p)) := by
    have := hsub.filter (fun e => e.position == p)
    simpa [List.filter_filter] using this
  have hperm : ((List.insertionSort byPosition l).filter
      (fun e => e.position == p)).Perm (l.filter (fun e => e.position == p)) :=
    (List.perm_insertionSort byPosition l).filter _
  exact (hsub2.eq_of_length hperm.length_eq.symm).symm

/-- **C5.** For every segment-like definition converted by the
schema-format converter, the produced element list is sorted
ascending (non-decreasing) by position, is a permutation of the
declaration-order element list, and — stability — the subsequence at
any fixed position equals the declaration-order subsequence at that
position; the element positions themselves come from the numeric
property-key suffix with default 1 (`getElementPosition`). -/
theorem elements_sorted_by_position (sid : String)
    (d : OpenAPISchemaDefinition) (sm : SchemaMap) (req : List String)
    (mu : Nat) :
    List.Sorted byPosition (importOpenAPISegment sid d sm req mu).elements ∧
    ((importOpenAPISegment sid d sm req mu).elements).Perm
      (declaredElements d sm) ∧
    (∀ p : Nat, ((importOpenAPISegment sid d sm req mu).elements).filter
        (fun e => e.position == p) =
      (declaredElements d sm).filter (fun e => e.position == p)) := by
  rw [importOpenAPISegment_elements]
  exact ⟨List.sorted_insertionSort byPosition (declaredElements d sm),
    List.perm_insertionSort byPosition (declaredElements d sm),
    fun p => insertionSort_filter_position (declaredElements d sm) p⟩

/-! ## Claim C4 — the order index and structural interleaving -/

/-- A plain data-shape definition: resolvable, but neither loop- nor
segment-marked. -/
def opaqueDef : OpenAPISchemaDefinition := { enum := some ["810"] }

/-- A segment-marked definition with a single element property. -/
def stDef : OpenAPISchemaDefinition :=
  { xOpenediSegmentId := some "ST",
    properties := some [("TransactionSetIdentifierCode_01",
      { format := some "X12_ID", minLength := some 3, maxLength := some 3 })] }

/-- A transaction-set root whose first property resolves to the
unmarked `opaqueDef` and whose second resolves to the segment. -/
def orderSkewRootDef : OpenAPISchemaDefinition :=
  { xOpenediMessageId := some "810",
    properties := some [
      ("Junk", { ref := some "#/components/schemas/Plain" }),
      ("ST", { ref := some "#/components/schemas/STDef" })] }

def orderSkewSchema : OpenAPISchema :=
  { openapi := "3.0.0",
    schemas := some [("Root", orderSkewRootDef), ("Plain", opaqueDef),
      ("STDef", stDef)] }

/-- The `order` indices of the top-level segments of a successful
run, in list order. -/
def topSegmentOrders (r : Option (Except String Specification)) :
    Option (List (Option Nat)) :=
  match r with
  | some (Except.ok spec) =>
    some ((spec.loops.map (fun l => l.segments.map Segment.order)).flatten)
  | _ => none

/-- **C4 counterexample.** The claim says the order index increments
exactly once per *structural* property (one resolving to a
segment-like or loop-like definition). On `orderSkewSchema` the first
structural property is the segment `ST`, so under the claim its
`order` would be 0; the code also increments for the preceding
resolved-but-unmarked property, so the produced segment carries
`order = 1`. -/
theorem order_counterexample :
    topSegmentOrders (importOpenAPIFormatF 2 orderSkewSchema) = some [some 1] := by
  rfl

/-- Segment projection of a combined item list. -/
def segsOf : List (Segment ⊕ Loop) → List Segment
  | [] => []
  | Sum.inl s :: rest => s :: segsOf rest
  | Sum.inr _ :: rest => segsOf rest

/-- Loop projection of a combined item list. -/
def loopsOf : List (Segment ⊕ Loop) → List Loop
  | [] => []
  | Sum.inl _ :: rest => loopsOf rest
  | Sum.inr l :: rest => l :: loopsOf rest

/-- The sort key used when the editor interleaves segments and loops:
the `order` field (0 when absent; every item produced by the walk has
it set). -/
def itemKey : Segment ⊕ Loop → Nat
  | Sum.inl s => s.order.getD 0
  | Sum.inr l => (Loop.order l).getD 0

/-- Non-strict order-key comparison (the sort relation). -/
def byKeyLE (a b : Segment ⊕ Loop) : Prop := itemKey a ≤ itemKey b

/-- Strict order-key comparison. -/
def byKeyLT (a b : Segment ⊕ Loop) : Prop := itemKey a < itemKey b

instance : DecidableRel byKeyLE := fun a b => Nat.decLe (itemKey a) (itemKey b)

instance : IsTotal (Segment ⊕ Loop) byKeyLE :=
  ⟨fun a b => Nat.le_total (itemKey a) (itemKey b)⟩

instance : IsTrans (Segment ⊕ Loop) byKeyLE :=
  ⟨fun _ _ _ h1 h2 => Nat.le_trans h1 h2⟩

instance : IsAntisymm (Segment ⊕ Loop) byKeyLT :=
  ⟨fun _ _ h1 h2 => absurd (Nat.lt_trans h1 h2) (Nat.lt_irrefl _)⟩

/-- The structural items (segments and loops) of one level, in
property declaration order, with their assigned order indices — the
reference list against which the converter's two separate lists are
compared. It mirrors `processProps` exactly, except that it emits one
combined list instead of splitting segments from loops. -/
def structuralItems
    (recur : OpenAPISchemaDefinition → Nat → Bool → Option Nat → Option Loop)
    (allSchemas : SchemaMap) (requiredItems : List String) :
    List (String × OpenAPIProperty) → Nat →
    Option (List (Segment ⊕ Loop) × Nat)
  | [], itemOrder => some ([], itemOrder)
  | (propKey, prop) :: rest, itemOrder =>
    if propKey = "Model" then
      structuralItems recur allSchemas requiredItems rest itemOrder
    else
      match propRefName prop with
      | none => structuralItems recur allSchemas requiredItems rest itemOrder
      | some rn =>
        match findSchema allSchemas rn with
        | none => structuralItems recur allSchemas requiredItems rest itemOrder
        | some refSchema =>
          if strTruthy refSchema.xOpenediLoopId then
            match recur refSchema (propItemMaxUse prop)
                (requiredItems.contains propKey) (some itemOrder) with
            | none => none
            | some nestedLoop =>
              match structuralItems recur allSchemas requiredItems rest
                  (itemOrder + 1) with
              | none => none
              | some (items, n) => some (Sum.inr nestedLoop :: items, n)
          else if strTruthy refSchema.xOpenediSegmentId then
            match structuralItems recur allSchemas requiredItems rest
                (itemOrder + 1) with
            | none => none
            | some (items, n) =>
              some (Sum.inl { importOpenAPISegment
                  (refSchema.xOpenediSegmentId.getD "") refSchema allSchemas
                  requiredItems (propItemMaxUse prop) with
                  order := some itemOrder } :: items, n)
          else structuralItems recur allSchemas requiredItems rest (itemOrder + 1)

/-- The property walk computes exactly the segment/loop projections of
the combined declaration-order item list. -/
theorem processProps_eq_structural
    (recur : OpenAPISchemaDefinition → Nat → Bool → Option Nat → Option Loop)
    (sm : SchemaMap) (req : List String) :
    ∀ props n,
      processProps recur sm req props n =
      (structuralItems recur sm req props n).map
        (fun pr => (segsOf pr.1, loopsOf pr.1, pr.2)) := by
  intro props
  induction props with
  | nil => intro n; rfl
  | cons kp rest ih =>
    obtain ⟨k, p⟩ := kp
    intro n
    by_cases hk : k = "Model"
    · simp only [processProps, structuralItems, if_pos hk]
      exact ih n
    · simp only [processProps, structuralItems, if_neg hk]
      cases hr : propRefName p with
      | none => dsimp only; exact ih n
      | some rn =>
        dsimp only
        cases hf : findSchema sm rn with
        | none => dsimp only; exact ih n
        | some d =>
          dsimp only
          cases hl : strTruthy d.xOpenediLoopId with
          | true =>
            simp only [if_pos rfl]
            cases hrec : recur d (propItemMaxUse p) (req.contains k) (some n) with
            | none => rfl
            | some nl =>
              rw [ih (n+1)]
              cases hs : structuralItems recur sm req rest (n+1) with
              | none => rfl
              | some pr =>
                obtain ⟨items, m⟩ := pr
                simp [segsOf, loopsOf]
          | false =>
            simp only [Bool.false_eq_true, if_false]
            cases hseg : strTruthy d.xOpenediSegmentId with
            | true =>
              simp only [if_pos rfl]
              rw [ih (n+1)]
              cases hs : structuralItems recur sm req rest (n+1) with
              | none => rfl
              | some pr =>
                obtain ⟨items, m⟩ := pr
                simp [segsOf, loopsOf]
            | false =>
              simp only [Bool.false_eq_true, if_false]
              exact ih (n+1)

theorem itemKey_inl_update (s : Segment) (n : Nat) :
    itemKey (Sum.inl { s with order := some n }) = n := by
  simp [itemKey]

/-- Every loop the fuelled converter returns carries exactly the
order index it was invoked with. -/
theorem importOpenAPILoopF_order (fuel : Nat)
    (d : OpenAPISchemaDefinition) (sm : SchemaMap) (mu : Nat) (rq : Bool)
    (od : Option Nat) (l : Loop)
    (h : importOpenAPILoopF fuel d sm mu rq od = some l) :
    Loop.order l = od := by
  match fuel with
  | 0 => exact (Option.noConfusion h)
  | fuel + 1 =>
    simp only [importOpenAPILoopF] at h
    split at h
    · exact (Option.noConfusion h)
    · injection h with h
      subst h
      rfl

/-- Keys of the declaration-order item list: strictly increasing, and
bounded below by the walk's starting counter. -/
theorem structuralItems_keys
    (recur : OpenAPISchemaDefinition → Nat → Bool → Option Nat → Option Loop)
    (hrec_order : ∀ d mu rq od l, recur d mu rq od = some l → Loop.order l = od)
    (sm : SchemaMap) (req : List String) :
    ∀ props n items m,
      structuralItems recur sm req props n = some (items, m) →
      items.Pairwise byKeyLT ∧ ∀ it ∈ items, n ≤ itemKey it := by
  intro props
  induction props with
  | nil =>
    intro n items m h
    simp only [structuralItems, Option.some.injEq, Prod.mk.injEq] at h
    obtain ⟨h1, _⟩ := h
    subst h1
    exact ⟨List.Pairwise.nil, fun it hit => absurd hit (List.not_mem_nil it)⟩
  | cons kp rest ih =>
    obtain ⟨k, p⟩ := kp
    intro n items m h
    simp only [structuralItems] at h
    split at h
    · exact ih _ _ _ h
    · split at h
      · exact ih _ _ _ h
      · split at h
        · exact ih _ _ _ h
        · split at h
          · split at h
            · exact (Option.noConfusion h)
            · rename_i nl hrec
              split at h
              · exact (Option.noConfusion h)
              · rename_i items' m' hs
                injection h with h
                injection h with hitems hm
                subst hitems
                obtain ⟨hpw, hbd⟩ := ih _ _ _ hs
                have hkey : itemKey (Sum.inr nl) = n := by
                  simp [itemKey, hrec_order _ _ _ _ _ hrec]
                refine ⟨List.Pairwise.cons (fun it hit => ?_) hpw, fun it hit => ?_⟩
                · have := hbd it hit
                  simp only [byKeyLT, hkey]
                  omega
                · rcases List.mem_cons.mp hit with h1 | h1
                  · subst h1; omega
                  · have := hbd it h1; omega
          · split at h
            · split at h
              · exact (Option.noConfusion h)
              · rename_i items' m' hs
                injection h with h
                injection h with hitems hm
                subst hitems
                obtain ⟨hpw, hbd⟩ := ih _ _ _ hs
                refine ⟨List.Pairwise.cons (fun it hit => ?_) hpw, fun it hit => ?_⟩
                · have := hbd it hit
                  simp only [byKeyLT, itemKey_inl_update]
                  omega
                · rcases List.mem_cons.mp hit with h1 | h1
                  · subst h1; rw [itemKey_inl_update]
                  · have := hbd it h1; omega
            · have hres := ih _ _ _ h
              exact ⟨hres.1, fun it hit => Nat.le_of_succ_le (hres.2 it hit)⟩

/-- Splitting the combined item list into its segment and loop
projections and concatenating them back is a permutation of the
original. -/
theorem segsOf_loopsOf_perm : ∀ items : List (Segment ⊕ Loop),
    ((segsOf items).map Sum.inl ++ (loopsOf items).map Sum.inr).Perm items
  | [] => by simp [segsOf, loopsOf]
  | Sum.inl s :: rest => by
    simp only [segsOf, loopsOf, List.map_cons, List.cons_append]
    exact (segsOf_loopsOf_perm rest).cons (Sum.inl s)
  | Sum.inr l :: rest => by
    simp only [segsOf, loopsOf, List.map_cons]
    exact List.perm_middle.trans ((segsOf_loopsOf_perm rest).cons (Sum.inr l))

/-- Sorting any interleaving of a strictly-key-sorted item list by the
order key recovers that list. -/
theorem insertionSort_recovers {items : List (Segment ⊕ Loop)}
    {combined : List (Segment ⊕ Loop)}
    (hperm : combined.Perm items)
    (hpw : items.Pairwise byKeyLT) :
    List.insertionSort byKeyLE combined = items := by
  have hout_perm : (List.insertionSort byKeyLE combined).Perm items :=
    (List.perm_insertionSort byKeyLE combined).trans hperm
  have hout_le : List.Sorted byKeyLE (List.insertionSort byKeyLE combined) :=
    List.sorted_insertionSort byKeyLE combined
  have hne_items : items.Pairwise (fun a b => itemKey a ≠ itemKey b) :=
    hpw.imp (fun h => Nat.ne_of_lt h)
  have hne_out : (List.insertionSort byKeyLE combined).Pairwise
      (fun a b => itemKey a ≠ itemKey b) :=
    (List.Perm.pairwise_iff (fun h => Ne.symm h) hout_perm).mpr hne_items
  have hout_lt : List.Sorted byKeyLT (List.insertionSort byKeyLE combined) := by
    have hand := List.Pairwise.and hout_le hne_out
    exact hand.imp (fun h => Nat.lt_of_le_of_ne h.1 h.2)
  exact List.eq_of_perm_of_sorted hout_perm hout_lt hpw

/-- An unmarked (neither loop- nor segment-like) but resolvable
reference still advances the order counter — `itemOrder++` sits inside
`if (refSchema)`, not inside the marker branches. -/
theorem opaque_ref_increments
    (recur : OpenAPISchemaDefinition → Nat → Bool → Option Nat → Option Loop)
    (sm : SchemaMap) (req : List String) (k : String) (p : OpenAPIProperty)
    (rest : List (String × OpenAPIProperty)) (n : Nat) (rn : String)
    (d : OpenAPISchemaDefinition)
    (hk : k ≠ "Model") (href : propRefName p = some rn)
    (hfound : findSchema sm rn = some d)
    (hnl : strTruthy d.xOpenediLoopId = false)
    (hns : strTruthy d.xOpenediSegmentId = false) :
    processProps recur sm req ((k, p) :: rest) n =
    processProps recur sm req rest (n + 1) := by
  simp only [processProps, if_neg hk, href, hfound, hnl, hns]
  rfl

/-- **C4 (amended).** At every level of the schema-format conversion
the order index increments once per property whose reference
*resolves* — whether the resolved definition is loop-like,
segment-like, or unmarked (the counterexample shows an unmarked
resolved reference also advancing it) — and the produced segments and
loops of that level, interleaved and stably sorted by their `order`
field, reproduce exactly the structural items in original property
declaration order. -/
theorem order_sort_reconstruction (fuel : Nat) (sm : SchemaMap)
    (req : List String) (props : List (String × OpenAPIProperty)) (n : Nat)
    (segs : List Segment) (loops : List Loop) (m : Nat)
    (items : List (Segment ⊕ Loop)) (mfin : Nat)
    (hp : processProps (fun d mu rq od => importOpenAPILoopF fuel d sm mu rq od)
      sm req props n = some (segs, loops, m))
    (hs : structuralItems (fun d mu rq od => importOpenAPILoopF fuel d sm mu rq od)
      sm req props n = some (items, mfin)) :
    List.insertionSort byKeyLE (segs.map Sum.inl ++ loops.map Sum.inr) = items := by
  rw [processProps_eq_structural, hs] at hp
  simp only [Option.map_some', Option.some.injEq, Prod.mk.injEq] at hp
  obtain ⟨hsegs, hloops, _⟩ := hp
  subst hsegs
  subst hloops
  have hkeys := structuralItems_keys _
    (fun d mu rq od l h => importOpenAPILoopF_order fuel d sm mu rq od l h)
    sm req props n items mfin hs
  exact insertionSort_recovers (segsOf_loopsOf_perm items) hkeys.1

/-- The definition mapping of `orderSkewSchema`, as a bare list. -/
def orderSkewSchemas : SchemaMap :=
  [("Root", orderSkewRootDef), ("Plain", opaqueDef), ("STDef", stDef)]

/-- **C4 (amended).** At every level of the schema-format conversion
(the transaction-set root included — its walk is the same
`processProps` instantiation that fills the synthetic top-level
Loop), the order index increments once per property whose reference
*resolves*, whether the resolved definition is loop-like,
segment-like or unmarked; and the produced segments and loops of a
level, interleaved and stably sorted by their `order` field,
reproduce exactly the structural items in original property
declaration order. -/
theorem order_interleaving :
    (∀ (fuel : Nat) (sm : SchemaMap) (req : List String)
        (props : List (String × OpenAPIProperty)) (n : Nat)
        (segs : List Segment) (loops : List Loop) (m : Nat)
        (items : List (Segment ⊕ Loop)) (mfin : Nat),
      processProps (fun d mu rq od => importOpenAPILoopF fuel d sm mu rq od)
          sm req props n = some (segs, loops, m) →
      structuralItems (fun d mu rq od => importOpenAPILoopF fuel d sm mu rq od)
          sm req props n = some (items, mfin) →
      List.insertionSort byKeyLE (segs.map Sum.inl ++ loops.map Sum.inr) = items) ∧
    (∀ (recur : OpenAPISchemaDefinition → Nat → Bool → Option Nat → Option Loop)
        (sm : SchemaMap) (req : List String) (k : String) (p : OpenAPIProperty)
        (rest : List (String × OpenAPIProperty)) (n : Nat) (rn : String)
        (d : OpenAPISchemaDefinition),
      k ≠ "Model" → propRefName p = some rn → findSchema sm rn = some d →
      strTruthy d.xOpenediLoopId = false →
      strTruthy d.xOpenediSegmentId = false →
      processProps recur sm req ((k, p) :: rest) n =
      processProps recur sm req rest (n + 1)) :=
  ⟨fun fuel sm req props n segs loops m items mfin hp hs =>
    order_sort_reconstruction fuel sm req props n segs loops m items mfin hp hs,
   fun recur sm req k p rest n rn d hk href hfound hnl hns =>
    opaque_ref_increments recur sm req k p rest n rn d hk href hfound hnl hns⟩

/-- Witness for `order_interleaving`: both conjuncts discharged at
concrete inputs (the skewed-order schema, and a concrete opaque
reference). -/
theorem order_interleaving_witness :
    (List.insertionSort byKeyLE
      (([{ importOpenAPISegment "ST" stDef orderSkewSchemas [] 1 with
            order := some 1 }].map Sum.inl) ++ (([] : List Loop).map Sum.inr)) =
      [Sum.inl { importOpenAPISegment "ST" stDef orderSkewSchemas [] 1 with
            order := some 1 }]) ∧
    (processProps (fun _ _ _ _ => none) [("Plain", opaqueDef)] []
        [("Junk", { ref := some "#/components/schemas/Plain" })] 5 =
      processProps (fun _ _ _ _ => none) [("Plain", opaqueDef)] [] [] 6) :=
  ⟨order_interleaving.1 1 orderSkewSchemas [] (orderSkewRootDef.properties.getD [])
      0 _ _ 2 _ 2 rfl rfl,
   order_interleaving.2 (fun _ _ _ _ => none) [("Plain", opaqueDef)] [] "Junk"
      { ref := some "#/components/schemas/Plain" } [] 5 "Plain" opaqueDef
      (by decide) rfl rfl rfl rfl⟩
